import Mathlib

/-!
# Verification of the contact identity-resolution engine

A shallow embedding of the deduplication core of `internal/vcard/dedup.go`
(field normalizers, candidate index, duplicate classifier, match-strength
comparator, field merge engine) together with the `Contact` data model and
`DisplayName` from the vcard package, and proofs about that embedding.

Strings are modelled as Lean `String`s; the character-level work of the Go
standard library (`strings.ToLower`, `strings.TrimSpace`, `strings.Fields`,
`strings.SplitN`, ...) is embedded over `List Char`.  `strings.ToLower` and
whitespace classification are modelled for the ASCII range (Lean's
`Char.toLower` / `Char.isWhitespace`); the x/text accent-removal transform
(NFD, strip combining marks, NFC) is modelled by a character table for the
common precomposed Latin letters, identity elsewhere, and removal of
standalone combining marks — all inputs appearing in the theorems below are
unaffected by the difference.
-/

/-- ASCII space test, modelling `unicode.IsSpace` on the ASCII range
(space, tab, newline, carriage return). -/
def isSpaceChar (c : Char) : Bool := c.isWhitespace

/-- `strings.TrimSpace` over characters: drop whitespace from both ends. -/
def trimChars (l : List Char) : List Char :=
  ((l.dropWhile isSpaceChar).reverse.dropWhile isSpaceChar).reverse

/-- Lowercasing of a character list, modelling `strings.ToLower` (ASCII). -/
def lowerChars (l : List Char) : List Char := l.map Char.toLower

/-- `NormalizePhoneForDedup` from dedup.go: keep only ASCII digits; use the
last 9 digits when there are at least 9; keep 6–8 digits verbatim; fewer
than 6 digits yield the empty (unusable) key. -/
def NormalizePhoneForDedup (phone : String) : String :=
  let d := phone.data.filter Char.isDigit
  if d.length ≥ 9 then ⟨d.drop (d.length - 9)⟩
  else if d.length ≥ 6 then ⟨d⟩
  else ""

/-- Split a character list at the first occurrence of `sep`, modelling
`strings.SplitN(s, sep, 2)`: `none` when `sep` does not occur, otherwise
the parts before and after the first occurrence. -/
def splitFirstAt (sep : Char) : List Char → Option (List Char × List Char)
  | [] => none
  | c :: rest =>
    if c = sep then some ([], rest)
    else (splitFirstAt sep rest).map (fun pr => (c :: pr.1, pr.2))

/-- `NormalizeEmailForDedup` from dedup.go: trim and lowercase; split at the
first `@` (no `@`: the string itself is the key); truncate the local part at
the first `+`; rewrite the `googlemail.com` domain to `gmail.com`; drop dots
from the local part for the `gmail.com` domain. -/
def NormalizeEmailForDedup (email : String) : String :=
  let e := lowerChars (trimChars email.data)
  match splitFirstAt '@' e with
  | none => ⟨e⟩
  | some (lp0, dom0) =>
    let lp1 := lp0.takeWhile (· ≠ '+')
    let dom1 := if dom0 = "googlemail.com".data then "gmail.com".data else dom0
    let lp2 := if dom1 = "gmail.com".data then lp1.filter (· ≠ '.') else lp1
    ⟨lp2 ++ '@' :: dom1⟩

/-- One character of the x/text accent-removal transform
(`norm.NFD` + `runes.Remove(runes.In(unicode.Mn))` + `norm.NFC`):
standalone combining marks are removed, common precomposed Latin letters
lose their mark, everything else (including non-decomposable letters such
as `ø`) is unchanged. -/
def deaccentChar (c : Char) : Option Char :=
  if 0x300 ≤ c.toNat ∧ c.toNat ≤ 0x36F then none
  else some (
    match c with
    | 'à' | 'á' | 'â' | 'ã' | 'ä' | 'å' | 'ā' | 'ă' => 'a'
    | 'è' | 'é' | 'ê' | 'ë' | 'ē' | 'ě' => 'e'
    | 'ì' | 'í' | 'î' | 'ï' | 'ī' => 'i'
    | 'ò' | 'ó' | 'ô' | 'õ' | 'ö' | 'ō' => 'o'
    | 'ù' | 'ú' | 'û' | 'ü' | 'ū' => 'u'
    | 'ý' | 'ÿ' => 'y'
    | 'ñ' | 'ń' | 'ň' => 'n'
    | 'ç' | 'ć' | 'č' => 'c'
    | 'š' | 'ś' => 's'
    | 'ž' | 'ź' | 'ż' => 'z'
    | 'ř' => 'r'
    | 'ď' => 'd'
    | 'ť' => 't'
    | 'ľ' | 'ĺ' => 'l'
    | _ => c)

/-- `removeAccents` from dedup.go over characters. -/
def removeAccents (l : List Char) : List Char := l.filterMap deaccentChar

/-- `strings.Fields`: split on whitespace runs, dropping empty words. -/
def fieldsAux (cur : List Char) : List Char → List (List Char)
  | [] => if cur = [] then [] else [cur.reverse]
  | c :: rest =>
    if isSpaceChar c then
      if cur = [] then fieldsAux [] rest else cur.reverse :: fieldsAux [] rest
    else fieldsAux (c :: cur) rest

/-- `strings.Fields` on a character list. -/
def fieldsChars (l : List Char) : List (List Char) := fieldsAux [] l

/-- `strings.TrimPrefix p` over characters. -/
def trimPrefixChars (p n : List Char) : List Char :=
  if p.isPrefixOf n then n.drop p.length else n

/-- `strings.TrimSuffix s` over characters. -/
def trimSuffixChars (s n : List Char) : List Char :=
  if s.isSuffixOf n then n.take (n.length - s.length) else n

/-- The honorific prefixes stripped by `NormalizeNameForDedup`, in source
order (each entry carries its trailing space, exactly as in dedup.go). -/
def honorificPrefixes : List String :=
  ["dr ", "dr. ", "mr ", "mr. ", "mrs ", "mrs. ", "ms ", "ms. ", "prof ", "prof. "]

/-- The generational/credential suffixes stripped by
`NormalizeNameForDedup`, in source order (each with its leading space). -/
def generationalSuffixes : List String :=
  [" jr", " jr.", " sr", " sr.", " ii", " iii", " iv", " phd", " md"]

/-- The prefix-stripping pass of `NormalizeNameForDedup`: one
`strings.TrimPrefix` per list entry, in list order. -/
def stripHonorifics (n : List Char) : List Char :=
  honorificPrefixes.foldl (fun m p => trimPrefixChars p.data m) n

/-- The suffix-stripping pass of `NormalizeNameForDedup`: one
`strings.TrimSuffix` per list entry, in list order. -/
def stripGenerational (n : List Char) : List Char :=
  generationalSuffixes.foldl (fun m s => trimSuffixChars s.data m) n

/-- `NormalizeNameForDedup` from dedup.go: lowercase, remove accents,
collapse whitespace (`strings.Fields` + join with single spaces), strip the
honorific prefixes and generational suffixes, final trim. -/
def NormalizeNameForDedup (name : String) : String :=
  let n1 := lowerChars name.data
  let n2 := removeAccents n1
  let n3 := List.intercalate [' '] (fieldsChars n2)
  let n4 := stripHonorifics n3
  let n5 := stripGenerational n4
  ⟨trimChars n5⟩

/-- `Address` from the vcard package. -/
@[ext]
structure Address where
  Street : String
  City : String
  Region : String
  PostalCode : String
  Country : String
  Full : String
deriving DecidableEq, Repr

/-- `Contact` from the vcard package. -/
@[ext]
structure Contact where
  FormattedName : String
  GivenName : String
  FamilyName : String
  MiddleName : String
  Prefix : String
  Suffix : String
  Emails : List String
  Phones : List String
  Addresses : List Address
  Organization : String
  Title : String
  URLs : List String
  Note : String
  Birthday : String
  Photo : String
  ObjectID : String
deriving DecidableEq, Repr

/-- The contact with every field empty (zero value of the Go struct). -/
def emptyContact : Contact :=
  { FormattedName := "", GivenName := "", FamilyName := "", MiddleName := ""
    Prefix := "", Suffix := "", Emails := [], Phones := [], Addresses := []
    Organization := "", Title := "", URLs := [], Note := "", Birthday := ""
    Photo := "", ObjectID := "" }

instance : Inhabited Contact := ⟨emptyContact⟩

/-- `Contact.DisplayName` from the vcard package: formatted name if
present, else the non-empty structured name parts joined by spaces, else
the organization, else the literal fallback `"Unnamed Contact"`. -/
def Contact.DisplayName (c : Contact) : String :=
  if c.FormattedName ≠ "" then c.FormattedName
  else
    let parts := [c.Prefix, c.GivenName, c.MiddleName, c.FamilyName, c.Suffix].filter (· ≠ "")
    if parts ≠ [] then String.intercalate " " parts
    else if c.Organization ≠ "" then c.Organization
    else "Unnamed Contact"

/-- `normalizeAddress` from dedup.go: the `|`-joined 5-tuple of trimmed,
lowercased address fields (the `Full` field does not participate). -/
def normalizeAddress (a : Address) : String :=
  String.intercalate "|"
    ([a.Street, a.City, a.Region, a.PostalCode, a.Country].map
      (fun s => ⟨lowerChars (trimChars s.data)⟩))

/-- `hasAnyOverlap` from dedup.go: build the set of `a`'s phone keys (note:
the source inserts the keys unfiltered, so the empty key of a short phone
enters the set) and test each of `b`'s phone keys against it; likewise for
email keys. -/
def hasAnyOverlap (a b : Contact) : Bool :=
  (b.Phones.any fun p =>
    (a.Phones.map NormalizePhoneForDedup).contains (NormalizePhoneForDedup p))
  || (b.Emails.any fun e =>
    (a.Emails.map NormalizeEmailForDedup).contains (NormalizeEmailForDedup e))

/-- `isMinimalContact` from dedup.go: no emails, at most 3 phones, no
addresses. -/
def isMinimalContact (c : Contact) : Bool :=
  if c.Emails.length > 0 then false
  else if c.Phones.length > 3 then false
  else if c.Addresses.length > 0 then false
  else true

/-!
## Candidate index

The Go `DedupIndex` holds three bucket maps from normalized key to lists of
`*Contact`.  Buckets record the keys a contact had when `Add` ran (a later
in-place merge does not re-index), while the classifier's per-candidate
checks (`hasAnyOverlap`, `isMinimalContact`) read the contact through its
pointer, i.e. its current state.  The embedding replaces pointers by
numeric ids: `entries` keeps `(id, snapshot at Add time)` in insertion
order — the three bucket maps are recovered from it by filtering, which
reproduces each bucket's contents in insertion order (the Go bucket may
hold a contact once per matching phone of one `Add`; the classifier
deduplicates matches, so only membership and first position matter) — and
`store` gives the current contact for an id. -/
structure DedupIndex where
  entries : List (Nat × Contact)
  store : Nat → Contact

/-- The index with no contacts. -/
def DedupIndex.empty : DedupIndex := ⟨[], fun _ => emptyContact⟩

/-- `DedupIndex.Add` from dedup.go: record the contact (under a fresh id)
with its keys as they are now.  `Add` only fills buckets for non-empty
keys, which the bucket readers below reproduce with their `k ≠ ""` guard. -/
def DedupIndex.Add (idx : DedupIndex) (i : Nat) (c : Contact) : DedupIndex :=
  { entries := idx.entries ++ [(i, c)]
    store := fun j => if j = i then c else idx.store j }

/-- The phone bucket for key `k`: ids of the contacts that were added with
some phone normalizing to `k` (empty for the empty key, since `Add` never
indexes an empty key). -/
def phoneBucket (idx : DedupIndex) (k : String) : List Nat :=
  if k = "" then []
  else ((idx.entries.filter fun e =>
    (e.2.Phones.map NormalizePhoneForDedup).contains k).map Prod.fst)

/-- The email bucket for key `k` (empty for the empty key). -/
def emailBucket (idx : DedupIndex) (k : String) : List Nat :=
  if k = "" then []
  else ((idx.entries.filter fun e =>
    (e.2.Emails.map NormalizeEmailForDedup).contains k).map Prod.fst)

/-- The name bucket for key `k` (empty for the empty key); `Add` computes
one name key per contact from its display name. -/
def nameBucket (idx : DedupIndex) (k : String) : List Nat :=
  if k = "" then []
  else ((idx.entries.filter fun e =>
    NormalizeNameForDedup e.2.DisplayName = k).map Prod.fst)

/-- The candidate stream of `FindDuplicates`, before `seen`/self
deduplication: all phone-bucket hits in phone order, then all email-bucket
hits, then the name-bucket hits that pass the rule-3 filter (any phone or
email overlap, else at least one of the two contacts minimal). -/
def candidateIds (idx : DedupIndex) (c : Contact) : List Nat :=
  (c.Phones.flatMap fun p => phoneBucket idx (NormalizePhoneForDedup p))
  ++ (c.Emails.flatMap fun e => emailBucket idx (NormalizeEmailForDedup e))
  ++ (let nk := NormalizeNameForDedup c.DisplayName
      if nk ≠ "" ∧ nk ≠ "unnamed contact" then
        (nameBucket idx nk).filter fun i =>
          hasAnyOverlap c (idx.store i)
          || (isMinimalContact c || isMinimalContact (idx.store i))
      else [])

/-- The `seen`-map accumulation of `addMatch` in `FindDuplicates`: keep the
first occurrence of each id not in `seen`. -/
def dedupFirstAux (seen : List Nat) : List Nat → List Nat
  | [] => []
  | x :: xs =>
    if x ∈ seen then dedupFirstAux seen xs
    else x :: dedupFirstAux (x :: seen) xs

/-- `FindDuplicates` from dedup.go for a query contact `c` carrying id
`qid` (the Go `candidate == c` pointer test is the id test; seeding `seen`
with `qid` reproduces it exactly: the query is skipped and never added). -/
def FindDuplicates (idx : DedupIndex) (qid : Nat) (c : Contact) : List Nat :=
  dedupFirstAux [qid] (candidateIds idx c)

/-- `IsDuplicate` from dedup.go: some duplicate was found. -/
def IsDuplicate (idx : DedupIndex) (qid : Nat) (c : Contact) : Bool :=
  !(FindDuplicates idx qid c).isEmpty

/-!
## Match-strength comparator -/

/-- `MatchStrength` from dedup.go. -/
inductive MatchStrength where
  | none
  | weak
  | medium
  | strong
deriving DecidableEq, Repr

/-- The phone loop of `CompareContacts`: some phone of `a` has a non-empty
key equal to the key of some phone of `b`. -/
def sharedPhoneKeyB (a b : Contact) : Bool :=
  a.Phones.any fun pa =>
    (NormalizePhoneForDedup pa != "")
    && b.Phones.any fun pb => NormalizePhoneForDedup pa == NormalizePhoneForDedup pb

/-- The email loop of `CompareContacts`. -/
def sharedEmailKeyB (a b : Contact) : Bool :=
  a.Emails.any fun ea =>
    (NormalizeEmailForDedup ea != "")
    && b.Emails.any fun eb => NormalizeEmailForDedup ea == NormalizeEmailForDedup eb

/-- `CompareContacts` from dedup.go (the Go locals `nameA`/`nameB` are
inlined as `NormalizeNameForDedup (·.DisplayName)`). -/
def CompareContacts (a b : Contact) : MatchStrength :=
  if sharedPhoneKeyB a b then .strong
  else if sharedEmailKeyB a b then .strong
  else if (NormalizeNameForDedup a.DisplayName == "unnamed contact")
      || (NormalizeNameForDedup b.DisplayName == "unnamed contact") then .none
  else if (NormalizeNameForDedup a.DisplayName != "")
      && (NormalizeNameForDedup a.DisplayName == NormalizeNameForDedup b.DisplayName) then
    if (a.Organization != "") && (a.Organization == b.Organization) then .medium
    else if (a.Birthday != "") && (a.Birthday == b.Birthday) then .medium
    else .weak
  else .none

/-!
## Field merge engine -/

/-- One scalar step of `MergeContacts`: fill `dst`'s field from `src` only
when `dst`'s field is empty and `src`'s is not; report whether it changed. -/
def mergeScalar (d s : String) : String × Bool :=
  if d = "" ∧ s ≠ "" then (s, true) else (d, false)

/-- The multi-valued loop of `MergeContacts`: `ks` is the key set so far
(seeded with all of `dst`'s keys, empty ones included, exactly as the Go
code fills its `existing` map), `acc` the list built so far; an item of
`src` is appended when its key is non-empty and not yet in the set. -/
def mergeListAux (key : α → String) (ks : List String) (acc : List α)
    (flag : Bool) : List α → List α × Bool
  | [] => (acc, flag)
  | x :: xs =>
    if ¬ (key x ∈ ks) ∧ key x ≠ "" then
      mergeListAux key (key x :: ks) (acc ++ [x]) true xs
    else mergeListAux key ks acc flag xs

/-- One multi-valued field of `MergeContacts`. -/
def mergeList (key : α → String) (dst src : List α) : List α × Bool :=
  mergeListAux key (dst.map key) dst false src

/-- The URL key of `MergeContacts`: `strings.ToLower`. -/
def urlKey (u : String) : String := ⟨lowerChars u.data⟩

/-- The note step of `MergeContacts`: nothing when `src`'s note is empty or
equal; adopt `src`'s note when `dst`'s is empty; otherwise concatenate with
the fixed separator. -/
def mergeNote (d s : String) : String × Bool :=
  if s ≠ "" ∧ d ≠ s then
    (if d = "" then s else d ++ "\n\n---\n\n" ++ s, true)
  else (d, false)

/-- `MergeContacts` from dedup.go, returning the updated destination and
the `merged` flag.  The Go function mutates `dst` field by field; the steps
touch pairwise distinct fields, so the sequential mutation is the parallel
update below, with `merged` the disjunction of the per-step flags in
statement order.  `src` is read only, never written (the Go function takes
it by pointer and only reads). -/
def MergeContacts (dst src : Contact) : Contact × Bool :=
  let fn := mergeScalar dst.FormattedName src.FormattedName
  let gn := mergeScalar dst.GivenName src.GivenName
  let fam := mergeScalar dst.FamilyName src.FamilyName
  let mid := mergeScalar dst.MiddleName src.MiddleName
  let pre := mergeScalar dst.Prefix src.Prefix
  let suf := mergeScalar dst.Suffix src.Suffix
  let em := mergeList NormalizeEmailForDedup dst.Emails src.Emails
  let ph := mergeList NormalizePhoneForDedup dst.Phones src.Phones
  let ad := mergeList normalizeAddress dst.Addresses src.Addresses
  let org := mergeScalar dst.Organization src.Organization
  let ti := mergeScalar dst.Title src.Title
  let ur := mergeList urlKey dst.URLs src.URLs
  let nt := mergeNote dst.Note src.Note
  let bd := mergeScalar dst.Birthday src.Birthday
  let pho := mergeScalar dst.Photo src.Photo
  ({ FormattedName := fn.1, GivenName := gn.1, FamilyName := fam.1
     MiddleName := mid.1, Prefix := pre.1, Suffix := suf.1
     Emails := em.1, Phones := ph.1, Addresses := ad.1
     Organization := org.1, Title := ti.1, URLs := ur.1
     Note := nt.1, Birthday := bd.1, Photo := pho.1
     ObjectID := dst.ObjectID },
   fn.2 || gn.2 || fam.2 || mid.2 || pre.2 || suf.2 || em.2 || ph.2
     || ad.2 || org.2 || ti.2 || ur.2 || nt.2 || bd.2 || pho.2)

/-!
## The batch-import process (§8 end-to-end scenario)

One record at a time: look up duplicates with a fresh query id; when none
are found the record is added to the index, otherwise it is merged into the
first match in place (the import loop of cmd/any-vcard/import: merge into
`duplicates[0]`, no re-indexing). -/
def importRecord (st : DedupIndex × Nat) (c : Contact) : DedupIndex × Nat :=
  match FindDuplicates st.1 st.2 c with
  | [] => (st.1.Add st.2 c, st.2 + 1)
  | m :: _ =>
    ({ st.1 with
        store := fun j => if j = m then (MergeContacts (st.1.store j) c).1 else st.1.store j },
     st.2 + 1)

/-- Process a batch of records in order against an initially empty index. -/
def importAll (records : List Contact) : DedupIndex × Nat :=
  records.foldl importRecord (DedupIndex.empty, 0)

/-- The seven §8 records, in import order. -/
def sectionEightRecords : List Contact :=
  [ { emptyContact with
      FormattedName := "John Doe"
      Phones := ["+1-555-111-1111"]
      Emails := ["john@example.com"] }
  , { emptyContact with FormattedName := "Johnny Doe", Phones := ["555-111-1111"] }
  , { emptyContact with FormattedName := "J. Doe", Emails := ["john+work@example.com"] }
  , { emptyContact with FormattedName := "Dr. John Doe", Phones := ["555-111-1111"] }
  , { emptyContact with FormattedName := "Jane Smith", Phones := ["+44 20 7123 4567"] }
  , { emptyContact with FormattedName := "Jane Smith", Phones := ["020 7123 4567"] }
  , { emptyContact with FormattedName := "Bob Johnson", Phones := ["555-333-3333"] } ]

/-!
## Concrete instances used by the counterexample / failing-input theorems -/

/-- An indexed contact that is not minimal (4 phones) whose first phone has
fewer than 6 digits and therefore the empty phone key. -/
def shortPhoneCandidate : Contact :=
  { emptyContact with
    FormattedName := "John Doe"
    Phones := ["12345", "555666", "555777", "555888"] }

/-- A query that is not minimal (4 phones), shares the name `john doe` with
`shortPhoneCandidate`, shares no non-empty phone or email key with it, but
also owns a phone with fewer than 6 digits (empty key). -/
def shortPhoneQuery : Contact :=
  { emptyContact with
    FormattedName := "John Doe"
    Phones := ["54321", "555111", "555222", "555333"] }

/-- A non-minimal indexed contact: same name as the query below, four
phones with pairwise distinct non-empty keys. -/
def fourPhoneCandidate : Contact :=
  { emptyContact with
    FormattedName := "John Doe"
    Phones := ["555001", "555002", "555003", "555004"] }

/-- A minimal query (one phone, no emails, no addresses) sharing only the
name with `fourPhoneCandidate`. -/
def onePhoneQuery : Contact :=
  { emptyContact with FormattedName := "John Doe", Phones := ["555999"] }

/-- Destination and source with clashing non-empty notes (used against the
"non-empty scalar fields are never changed" reading of the merge rule). -/
def noteDst : Contact := { emptyContact with FormattedName := "Keep", Note := "alpha" }

/-- See `noteDst`. -/
def noteSrc : Contact := { emptyContact with FormattedName := "Ignored", Note := "beta" }

/-- A source contact whose only phone has fewer than 6 digits, hence the
empty phone key. -/
def emptyKeySrc : Contact := { emptyContact with Phones := ["123"] }

/-- Same-named contacts with a shared organization, for the C9/C10
witnesses. -/
def orgContactA : Contact :=
  { emptyContact with FormattedName := "Ada Lovelace", Organization := "Acme" }

/-- See `orgContactA` (same name key, same organization, different case in
the display name). -/
def orgContactB : Contact :=
  { emptyContact with FormattedName := "ada LOVELACE", Organization := "Acme" }

/-- A minimal indexed candidate sharing only the name with
`bothMinimalQuery`. -/
def bothMinimalCand : Contact :=
  { emptyContact with FormattedName := "John Doe", Phones := ["555001"] }

/-- A minimal query sharing only the name with `bothMinimalCand`. -/
def bothMinimalQuery : Contact :=
  { emptyContact with FormattedName := "John Doe", Phones := ["555999"] }

/-- A non-minimal indexed candidate (4 phones) for the no-match side. -/
def richCand : Contact :=
  { emptyContact with
    FormattedName := "John Doe"
    Phones := ["555001", "555002", "555003", "555004"] }

/-- A non-minimal query (an email) sharing only the name with `richCand`. -/
def richQuery : Contact :=
  { emptyContact with
    FormattedName := "John Doe"
    Phones := ["555999"]
    Emails := ["q@x.com"] }

/-- The lowercased, whitespace-trimmed form of a string (the first step of
`NormalizeEmailForDedup`). -/
def lowerTrimStr (s : String) : String := ⟨lowerChars (trimChars s.data)⟩

/-!
## The spec's formulation of the multi-valued merge rule -/

/-- The multi-valued merge rule as the spec words it (§4.5): for each item
of `src` in order, compute its normalized key and check it against the keys
of the *current* contents (recomputed fresh); append when the key is
non-empty and absent.  This is the reference formulation the running-set
implementation `mergeList` is compared against. -/
def specMergeList (key : α → String) (cur : List α) : List α → List α
  | [] => cur
  | x :: xs =>
    if key x ≠ "" ∧ key x ∉ cur.map key then specMergeList key (cur ++ [x]) xs
    else specMergeList key cur xs

/-!
## Comparator predicates -/

/-- Two contacts share a non-empty phone key. -/
def SharesPhoneKey (a b : Contact) : Prop :=
  ∃ p ∈ a.Phones, NormalizePhoneForDedup p ≠ ""
    ∧ ∃ q ∈ b.Phones, NormalizePhoneForDedup p = NormalizePhoneForDedup q

/-- Two contacts share a non-empty email key. -/
def SharesEmailKey (a b : Contact) : Prop :=
  ∃ p ∈ a.Emails, NormalizeEmailForDedup p ≠ ""
    ∧ ∃ q ∈ b.Emails, NormalizeEmailForDedup p = NormalizeEmailForDedup q

/-- One of the two normalized display names is the unnamed sentinel. -/
def UnnamedSentinel (a b : Contact) : Prop :=
  NormalizeNameForDedup a.DisplayName = "unnamed contact"
  ∨ NormalizeNameForDedup b.DisplayName = "unnamed contact"

/-- The two normalized display names are equal and non-empty. -/
def SameNameKey (a b : Contact) : Prop :=
  NormalizeNameForDedup a.DisplayName ≠ ""
  ∧ NormalizeNameForDedup a.DisplayName = NormalizeNameForDedup b.DisplayName

/-- Both contacts carry the same non-empty organization. -/
def OrgCorroborates (a b : Contact) : Prop :=
  a.Organization ≠ "" ∧ a.Organization = b.Organization

/-- Both contacts carry the same non-empty birthday string. -/
def BirthdayCorroborates (a b : Contact) : Prop :=
  a.Birthday ≠ "" ∧ a.Birthday = b.Birthday

instance (a b : Contact) : Decidable (SharesPhoneKey a b) := by
  unfold SharesPhoneKey; infer_instance

instance (a b : Contact) : Decidable (SharesEmailKey a b) := by
  unfold SharesEmailKey; infer_instance

instance (a b : Contact) : Decidable (UnnamedSentinel a b) := by
  unfold UnnamedSentinel; infer_instance

instance (a b : Contact) : Decidable (SameNameKey a b) := by
  unfold SameNameKey; infer_instance

instance (a b : Contact) : Decidable (OrgCorroborates a b) := by
  unfold OrgCorroborates; infer_instance

instance (a b : Contact) : Decidable (BirthdayCorroborates a b) := by
  unfold BirthdayCorroborates; infer_instance

/-!
## Membership lemmas for the classifier -/

lemma mem_dedupFirstAux (l : List Nat) : ∀ (seen : List Nat) (x : Nat),
    x ∈ dedupFirstAux seen l ↔ x ∈ l ∧ x ∉ seen := by
  induction l with
  | nil => intro seen x; simp [dedupFirstAux]
  | cons y ys ih =>
    intro seen x
    by_cases hy : y ∈ seen
    · rw [dedupFirstAux, if_pos hy, ih]
      simp only [List.mem_cons]
      constructor
      · rintro ⟨hx, hs⟩; exact ⟨Or.inr hx, hs⟩
      · rintro ⟨hx | hx, hs⟩
        · exact absurd (hx ▸ hy) hs
        · exact ⟨hx, hs⟩
    · rw [dedupFirstAux, if_neg hy]
      simp only [List.mem_cons, ih]
      constructor
      · rintro (hx | ⟨hx, hs⟩)
        · exact ⟨Or.inl hx, hx ▸ hy⟩
        · exact ⟨Or.inr hx, fun h => hs (Or.inr h)⟩
      · rintro ⟨hx | hx, hs⟩
        · exact Or.inl hx
        · by_cases hxy : x = y
          · exact Or.inl hxy
          · exact Or.inr ⟨hx, by simp [List.mem_cons, hxy, hs]⟩

lemma mem_FindDuplicates {idx : DedupIndex} {qid i : Nat} {c : Contact} :
    i ∈ FindDuplicates idx qid c ↔ i ∈ candidateIds idx c ∧ i ≠ qid := by
  rw [FindDuplicates, mem_dedupFirstAux]; simp

lemma mem_phoneBucket {idx : DedupIndex} {k : String} {i : Nat} :
    i ∈ phoneBucket idx k ↔
      k ≠ "" ∧ ∃ s, (i, s) ∈ idx.entries ∧ k ∈ s.Phones.map NormalizePhoneForDedup := by
  unfold phoneBucket
  by_cases hk : k = ""
  · simp [hk]
  · rw [if_neg hk]
    simp only [List.mem_map, List.mem_filter, hk, ne_eq, not_false_eq_true, true_and]
    constructor
    · rintro ⟨e, ⟨he, hc⟩, hfst⟩
      exact ⟨e.2, by simpa [← hfst] using he, List.mem_map.mp (List.elem_iff.mp hc)⟩
    · rintro ⟨s, hs, hmem⟩
      exact ⟨(i, s), ⟨hs, List.elem_iff.mpr (List.mem_map.mpr hmem)⟩, rfl⟩

lemma mem_emailBucket {idx : DedupIndex} {k : String} {i : Nat} :
    i ∈ emailBucket idx k ↔
      k ≠ "" ∧ ∃ s, (i, s) ∈ idx.entries ∧ k ∈ s.Emails.map NormalizeEmailForDedup := by
  unfold emailBucket
  by_cases hk : k = ""
  · simp [hk]
  · rw [if_neg hk]
    simp only [List.mem_map, List.mem_filter, hk, ne_eq, not_false_eq_true, true_and]
    constructor
    · rintro ⟨e, ⟨he, hc⟩, hfst⟩
      exact ⟨e.2, by simpa [← hfst] using he, List.mem_map.mp (List.elem_iff.mp hc)⟩
    · rintro ⟨s, hs, hmem⟩
      exact ⟨(i, s), ⟨hs, List.elem_iff.mpr (List.mem_map.mpr hmem)⟩, rfl⟩

lemma mem_nameBucket {idx : DedupIndex} {k : String} {i : Nat} :
    i ∈ nameBucket idx k ↔
      k ≠ "" ∧ ∃ s, (i, s) ∈ idx.entries ∧ NormalizeNameForDedup s.DisplayName = k := by
  unfold nameBucket
  by_cases hk : k = ""
  · simp [hk]
  · rw [if_neg hk]
    simp only [List.mem_map, List.mem_filter, hk, ne_eq, not_false_eq_true, true_and]
    constructor
    · rintro ⟨e, ⟨he, hc⟩, hfst⟩
      exact ⟨e.2, by simpa [← hfst] using he, by simpa using hc⟩
    · rintro ⟨s, hs, hmem⟩
      exact ⟨(i, s), ⟨hs, by simpa using hmem⟩, rfl⟩

lemma mem_candidateIds {idx : DedupIndex} {c : Contact} {i : Nat} :
    i ∈ candidateIds idx c ↔
      (∃ p ∈ c.Phones, i ∈ phoneBucket idx (NormalizePhoneForDedup p))
      ∨ (∃ e ∈ c.Emails, i ∈ emailBucket idx (NormalizeEmailForDedup e))
      ∨ (NormalizeNameForDedup c.DisplayName ≠ ""
          ∧ NormalizeNameForDedup c.DisplayName ≠ "unnamed contact"
          ∧ i ∈ nameBucket idx (NormalizeNameForDedup c.DisplayName)
          ∧ (hasAnyOverlap c (idx.store i)
              || (isMinimalContact c || isMinimalContact (idx.store i))) = true) := by
  unfold candidateIds
  by_cases hnk : NormalizeNameForDedup c.DisplayName ≠ ""
      ∧ NormalizeNameForDedup c.DisplayName ≠ "unnamed contact"
  · rw [if_pos hnk]
    simp only [List.mem_append, List.mem_flatMap, List.mem_filter, hnk.1, hnk.2, ne_eq,
      not_false_eq_true, true_and, or_assoc]
  · rw [if_neg hnk]
    simp only [List.mem_append, List.mem_flatMap, List.not_mem_nil, or_false]
    constructor
    · rintro (h | h)
      · exact Or.inl h
      · exact Or.inr (Or.inl h)
    · rintro (h | h | ⟨h1, h2, _⟩)
      · exact Or.inl h
      · exact Or.inr h
      · exact absurd ⟨h1, h2⟩ hnk

/-- `hasAnyOverlap a b = false` says precisely that no phone key of `b`
(empty or not) occurs among `a`'s phone keys, and likewise for emails. -/
lemma hasAnyOverlap_eq_false {a b : Contact} :
    hasAnyOverlap a b = false ↔
      (∀ p ∈ b.Phones,
        NormalizePhoneForDedup p ∉ a.Phones.map NormalizePhoneForDedup)
      ∧ (∀ e ∈ b.Emails,
        NormalizeEmailForDedup e ∉ a.Emails.map NormalizeEmailForDedup) := by
  rw [hasAnyOverlap, Bool.or_eq_false_iff]
  simp only [List.any_eq_false]
  constructor
  · rintro ⟨h1, h2⟩
    exact ⟨fun p hp hmem => h1 p hp (List.elem_iff.mpr hmem),
           fun e he hmem => h2 e he (List.elem_iff.mpr hmem)⟩
  · rintro ⟨h1, h2⟩
    exact ⟨fun p hp hc => h1 p hp (List.elem_iff.mp hc),
           fun e he hc => h2 e he (List.elem_iff.mp hc)⟩

/-!
## Lemmas about the merge helpers -/

lemma mergeScalar_self (d : String) : mergeScalar d d = (d, false) := by
  unfold mergeScalar
  rw [if_neg]
  rintro ⟨h1, h2⟩; exact h2 h1

lemma mergeScalar_keep {d s : String} (h : d ≠ "") : (mergeScalar d s).1 = d := by
  unfold mergeScalar
  rw [if_neg]; rintro ⟨h1, _⟩; exact h h1

lemma mergeScalar_flag {d s : String} :
    (mergeScalar d s).2 = true ↔ (mergeScalar d s).1 ≠ d := by
  unfold mergeScalar
  by_cases h : d = "" ∧ s ≠ ""
  · rw [if_pos h]
    simp only [ne_eq, true_iff]
    intro he
    exact h.2 (he.trans h.1)
  · rw [if_neg h]; simp

lemma mergeListAux_extends (key : α → String) :
    ∀ (src : List α) (ks : List String) (acc : List α) (flag : Bool),
      ∃ t, (mergeListAux key ks acc flag src).1 = acc ++ t := by
  intro src
  induction src with
  | nil => intro ks acc flag; exact ⟨[], by simp [mergeListAux]⟩
  | cons x xs ih =>
    intro ks acc flag
    rw [mergeListAux]
    by_cases h : ¬ (key x ∈ ks) ∧ key x ≠ ""
    · rw [if_pos h]
      obtain ⟨t, ht⟩ := ih (key x :: ks) (acc ++ [x]) true
      exact ⟨[x] ++ t, by simpa using ht⟩
    · rw [if_neg h]; exact ih ks acc flag

lemma mergeListAux_cases (key : α → String) :
    ∀ (src : List α) (ks : List String) (acc : List α) (flag : Bool),
      mergeListAux key ks acc flag src = (acc, flag)
      ∨ ((mergeListAux key ks acc flag src).2 = true
          ∧ acc.length < (mergeListAux key ks acc flag src).1.length) := by
  intro src
  induction src with
  | nil => intro ks acc flag; exact Or.inl (by simp [mergeListAux])
  | cons x xs ih =>
    intro ks acc flag
    rw [mergeListAux]
    by_cases h : ¬ (key x ∈ ks) ∧ key x ≠ ""
    · rw [if_pos h]
      refine Or.inr ?_
      rcases ih (key x :: ks) (acc ++ [x]) true with heq | ⟨hf, hlt⟩
      · rw [heq]
        simp
      · exact ⟨hf, lt_trans (by simp) hlt⟩
    · rw [if_neg h]; exact ih ks acc flag

lemma mergeList_extends (key : α → String) (dst src : List α) :
    ∃ t, (mergeList key dst src).1 = dst ++ t :=
  mergeListAux_extends key src (dst.map key) dst false

lemma mergeList_flag (key : α → String) (dst src : List α) :
    (mergeList key dst src).2 = true ↔ (mergeList key dst src).1 ≠ dst := by
  unfold mergeList
  rcases mergeListAux_cases key src (dst.map key) dst false with heq | ⟨hf, hlt⟩
  · rw [heq]; simp
  · rw [hf]
    simp only [true_iff, ne_eq]
    intro he
    rw [he] at hlt
    exact lt_irrefl _ hlt

lemma mergeListAux_skip_all (key : α → String) :
    ∀ (src : List α) (ks : List String) (acc : List α) (flag : Bool),
      (∀ x ∈ src, key x ∈ ks) → mergeListAux key ks acc flag src = (acc, flag) := by
  intro src
  induction src with
  | nil => intro ks acc flag _; simp [mergeListAux]
  | cons x xs ih =>
    intro ks acc flag hall
    rw [mergeListAux, if_neg, ih ks acc flag (fun y hy => hall y (List.mem_cons_of_mem x hy))]
    rintro ⟨h1, _⟩
    exact h1 (hall x (List.mem_cons_self x xs))

lemma mergeList_self (key : α → String) (l : List α) :
    mergeList key l l = (l, false) :=
  mergeListAux_skip_all key l (l.map key) l false
    (fun x hx => List.mem_map.mpr ⟨x, hx, rfl⟩)

lemma mergeNote_self (d : String) : mergeNote d d = (d, false) := by
  unfold mergeNote
  rw [if_neg]
  rintro ⟨_, h2⟩; exact h2 rfl

lemma mergeNote_extends (d s : String) : ∃ t, (mergeNote d s).1 = d ++ t := by
  unfold mergeNote
  by_cases h : s ≠ "" ∧ d ≠ s
  · rw [if_pos h]
    by_cases hd : d = ""
    · exact ⟨s, by simp [hd, String.empty_append]⟩
    · exact ⟨"\n\n---\n\n" ++ s, by simp [hd, String.append_assoc]⟩
  · rw [if_neg h]
    exact ⟨"", by simp⟩

lemma string_eq_empty_of_length {t : String} (h : t.length = 0) : t = "" := by
  obtain ⟨data⟩ := t
  cases data with
  | nil => rfl
  | cons c cs =>
    exfalso
    have hc : ((⟨c :: cs⟩ : String)).length = cs.length + 1 := rfl
    omega

lemma append_ne_self_of_ne {d t : String} (ht : t ≠ "") : d ++ t ≠ d := by
  intro he
  have hlen := congrArg String.length he
  rw [String.length_append] at hlen
  exact ht (string_eq_empty_of_length (by omega))

lemma sepAppend_ne_empty (s : String) : ("\n\n---\n\n" ++ s : String) ≠ "" := by
  intro hbad
  have hl := congrArg String.length hbad
  rw [String.length_append] at hl
  have h8 : ("\n\n---\n\n" : String).length = 7 := by decide
  have h0 : ("" : String).length = 0 := by decide
  rw [h8, h0] at hl
  omega

lemma mergeNote_flag {d s : String} :
    (mergeNote d s).2 = true ↔ (mergeNote d s).1 ≠ d := by
  unfold mergeNote
  by_cases h : s ≠ "" ∧ d ≠ s
  · rw [if_pos h]
    simp only [true_iff]
    by_cases hd : d = ""
    · rw [if_pos hd]
      intro he
      exact h.1 (he.trans hd)
    · rw [if_neg hd, String.append_assoc]
      exact append_ne_self_of_ne (sepAppend_ne_empty s)
  · rw [if_neg h]; simp

/-!
## Refinement of the multi-valued merge against the spec formulation -/

lemma mergeListAux_eq_spec (key : α → String) :
    ∀ (src : List α) (ks : List String) (cur : List α) (flag : Bool),
      (∀ k, k ∈ ks ↔ k ∈ cur.map key) →
      (mergeListAux key ks cur flag src).1 = specMergeList key cur src := by
  intro src
  induction src with
  | nil => intro ks cur flag _; simp [mergeListAux, specMergeList]
  | cons x xs ih =>
    intro ks cur flag hks
    rw [mergeListAux, specMergeList]
    by_cases h : key x ≠ "" ∧ key x ∉ cur.map key
    · rw [if_pos ⟨fun hmem => h.2 ((hks (key x)).mp hmem), h.1⟩, if_pos h]
      refine ih (key x :: ks) (cur ++ [x]) true ?_
      intro k
      simp only [List.mem_cons, List.map_append, List.mem_append, List.map_cons,
        List.mem_singleton, List.map_nil, hks k]
      tauto
    · rw [if_neg, if_neg h]
      · exact ih ks cur flag hks
      · rintro ⟨hnm, hne⟩
        exact h ⟨hne, fun hmem => hnm ((hks (key x)).mpr hmem)⟩

lemma mergeList_eq_spec (key : α → String) (dst src : List α) :
    (mergeList key dst src).1 = specMergeList key dst src :=
  mergeListAux_eq_spec key src (dst.map key) dst false (fun _ => Iff.rfl)

/-!
## Comparator characterization -/

lemma sharedPhoneKeyB_iff {a b : Contact} :
    sharedPhoneKeyB a b = true ↔ SharesPhoneKey a b := by
  simp [sharedPhoneKeyB, SharesPhoneKey, List.any_eq_true]

lemma sharedEmailKeyB_iff {a b : Contact} :
    sharedEmailKeyB a b = true ↔ SharesEmailKey a b := by
  simp [sharedEmailKeyB, SharesEmailKey, List.any_eq_true]

lemma unnamedB_iff {a b : Contact} :
    ((NormalizeNameForDedup a.DisplayName == "unnamed contact")
      || (NormalizeNameForDedup b.DisplayName == "unnamed contact")) = true
      ↔ UnnamedSentinel a b := by
  simp [UnnamedSentinel]

lemma sameNameB_iff {a b : Contact} :
    ((NormalizeNameForDedup a.DisplayName != "")
      && (NormalizeNameForDedup a.DisplayName == NormalizeNameForDedup b.DisplayName)) = true
      ↔ SameNameKey a b := by
  simp [SameNameKey]

lemma orgB_iff {a b : Contact} :
    ((a.Organization != "") && (a.Organization == b.Organization)) = true
      ↔ OrgCorroborates a b := by
  simp [OrgCorroborates]

lemma bdayB_iff {a b : Contact} :
    ((a.Birthday != "") && (a.Birthday == b.Birthday)) = true
      ↔ BirthdayCorroborates a b := by
  simp [BirthdayCorroborates]

/-- Full case analysis of `CompareContacts`: one iff per strength value. -/
lemma compareContacts_cases (a b : Contact) :
    (CompareContacts a b = MatchStrength.strong
      ↔ SharesPhoneKey a b ∨ SharesEmailKey a b)
    ∧ (CompareContacts a b = MatchStrength.medium
      ↔ ¬(SharesPhoneKey a b ∨ SharesEmailKey a b) ∧ ¬UnnamedSentinel a b
          ∧ SameNameKey a b ∧ (OrgCorroborates a b ∨ BirthdayCorroborates a b))
    ∧ (CompareContacts a b = MatchStrength.weak
      ↔ ¬(SharesPhoneKey a b ∨ SharesEmailKey a b) ∧ ¬UnnamedSentinel a b
          ∧ SameNameKey a b ∧ ¬OrgCorroborates a b ∧ ¬BirthdayCorroborates a b)
    ∧ (CompareContacts a b = MatchStrength.none
      ↔ ¬(SharesPhoneKey a b ∨ SharesEmailKey a b)
          ∧ (UnnamedSentinel a b ∨ ¬SameNameKey a b)) := by
  unfold CompareContacts
  by_cases h1 : SharesPhoneKey a b
  · rw [if_pos (sharedPhoneKeyB_iff.mpr h1)]
    refine ⟨by simp [h1], ?_, ?_, ?_⟩ <;>
      exact iff_of_false (by simp) (fun h => h.1 (Or.inl h1))
  · rw [if_neg (by rw [sharedPhoneKeyB_iff]; exact h1)]
    by_cases h2 : SharesEmailKey a b
    · rw [if_pos (sharedEmailKeyB_iff.mpr h2)]
      refine ⟨by simp [h2], ?_, ?_, ?_⟩ <;>
        exact iff_of_false (by simp) (fun h => h.1 (Or.inr h2))
    · rw [if_neg (by rw [sharedEmailKeyB_iff]; exact h2)]
      have hsh : ¬(SharesPhoneKey a b ∨ SharesEmailKey a b) := by
        rintro (h | h) <;> [exact h1 h; exact h2 h]
      by_cases h3 : UnnamedSentinel a b
      · rw [if_pos (unnamedB_iff.mpr h3)]
        refine ⟨iff_of_false (by simp) (fun h => hsh h), ?_, ?_, by simp [hsh, h3]⟩ <;>
          exact iff_of_false (by simp) (fun h => h.2.1 h3)
      · rw [if_neg (by rw [unnamedB_iff]; exact h3)]
        by_cases h4 : SameNameKey a b
        · rw [if_pos (sameNameB_iff.mpr h4)]
          by_cases h5 : OrgCorroborates a b
          · rw [if_pos (orgB_iff.mpr h5)]
            refine ⟨iff_of_false (by simp) (fun h => hsh h),
              by simp [hsh, h3, h4, h5], ?_, ?_⟩
            · exact iff_of_false (by simp) (fun h => h.2.2.2.1 h5)
            · exact iff_of_false (by simp) (fun h => h.2.elim (fun hu => h3 hu) (fun hn => hn h4))
          · rw [if_neg (by rw [orgB_iff]; exact h5)]
            by_cases h6 : BirthdayCorroborates a b
            · rw [if_pos (bdayB_iff.mpr h6)]
              refine ⟨iff_of_false (by simp) (fun h => hsh h),
                by simp [hsh, h3, h4, h6], ?_, ?_⟩
              · exact iff_of_false (by simp) (fun h => h.2.2.2.2 h6)
              · exact iff_of_false (by simp) (fun h => h.2.elim (fun hu => h3 hu) (fun hn => hn h4))
            · rw [if_neg (by rw [bdayB_iff]; exact h6)]
              refine ⟨iff_of_false (by simp) (fun h => hsh h), ?_,
                by simp [hsh, h3, h4, h5, h6], ?_⟩
              · exact iff_of_false (by simp)
                  (fun h => h.2.2.2.elim (fun ho => h5 ho) (fun hb => h6 hb))
              · exact iff_of_false (by simp) (fun h => h.2.elim (fun hu => h3 hu) (fun hn => hn h4))
        · rw [if_neg (by rw [sameNameB_iff]; exact h4)]
          refine ⟨iff_of_false (by simp) (fun h => hsh h), ?_, ?_, by simp [hsh, h4]⟩ <;>
            exact iff_of_false (by simp) (fun h => h4 h.2.2.1)

/-!
## Lemmas about email splitting (for the multi-at analysis) -/

lemma splitFirstAt_eq_none {sep : Char} :
    ∀ {l : List Char}, splitFirstAt sep l = none ↔ sep ∉ l := by
  intro l
  induction l with
  | nil => simp [splitFirstAt]
  | cons c rest ih =>
    rw [splitFirstAt]
    by_cases hc : c = sep
    · simp [hc]
    · rw [if_neg hc]
      constructor
      · intro h hm
        rcases List.mem_cons.mp hm with he | hm2
        · exact hc he.symm
        · have hnone : splitFirstAt sep rest = none := by
            cases hsp : splitFirstAt sep rest with
            | none => rfl
            | some pr => rw [hsp] at h; simp at h
          exact (ih.mp hnone) hm2
      · intro h
        have hnone : splitFirstAt sep rest = none :=
          ih.mpr (fun hm => h (List.mem_cons_of_mem c hm))
        rw [hnone]; rfl

lemma splitFirstAt_append {sep : Char} :
    ∀ (pre rest : List Char), sep ∉ pre →
      splitFirstAt sep (pre ++ sep :: rest) = some (pre, rest) := by
  intro pre
  induction pre with
  | nil => intro rest _; simp [splitFirstAt]
  | cons c cs ih =>
    intro rest h
    have hc : ¬(c = sep) := by
      intro he
      exact h (by rw [he]; exact List.mem_cons_self sep cs)
    rw [List.cons_append, splitFirstAt, if_neg hc,
      ih rest (fun hm => h (List.mem_cons_of_mem c hm))]
    rfl

lemma toLower_ne_at {c : Char} (h : c ≠ '@') : Char.toLower c ≠ '@' := by
  unfold Char.toLower
  by_cases hc : c.toNat ≥ 65 ∧ c.toNat ≤ 90
  · rw [if_pos hc]
    intro he
    have hv : (c.toNat + 32).isValidChar := Or.inl (by omega)
    have h2 := congrArg Char.toNat he
    have h3 : (Char.ofNat (c.toNat + 32)).toNat = c.toNat + 32 := by
      unfold Char.ofNat
      rw [dif_pos hv]
      rfl
    rw [h3] at h2
    have h4 : ('@' : Char).toNat = 64 := by decide
    omega
  · rw [if_neg hc]; exact h

lemma mem_of_mem_trimChars {c : Char} {l : List Char} (h : c ∈ trimChars l) : c ∈ l := by
  unfold trimChars at h
  have h1 := List.mem_reverse.mp h
  have h2 := (List.dropWhile_sublist isSpaceChar).mem h1
  have h3 := List.mem_reverse.mp h2
  exact (List.dropWhile_sublist isSpaceChar).mem h3

lemma at_not_mem_lowerTrim {s : String} (h : '@' ∉ s.data) :
    '@' ∉ lowerChars (trimChars s.data) := by
  intro hm
  obtain ⟨c, hc, he⟩ := List.mem_map.mp hm
  exact toLower_ne_at (fun hca => h (hca ▸ mem_of_mem_trimChars hc)) he

/-!
## Flag lemmas for the merge engine -/

lemma mergeScalar_flag_false {d s : String} (h : (mergeScalar d s).2 = false) :
    (mergeScalar d s).1 = d := by
  by_contra hne
  rw [mergeScalar_flag.mpr hne] at h
  exact absurd h (by simp)

lemma mergeList_flag_false {key : α → String} {dst src : List α}
    (h : (mergeList key dst src).2 = false) : (mergeList key dst src).1 = dst := by
  by_contra hne
  rw [(mergeList_flag key dst src).mpr hne] at h
  exact absurd h (by simp)

lemma mergeNote_flag_false {d s : String} (h : (mergeNote d s).2 = false) :
    (mergeNote d s).1 = d := by
  by_contra hne
  rw [mergeNote_flag.mpr hne] at h
  exact absurd h (by simp)

lemma contact_ne_of_field {β : Type} (f : Contact → β) {x y : Contact}
    (h : f x ≠ f y) : x ≠ y :=
  fun he => h (congrArg f he)

lemma mergeContacts_flag_eq (dst src : Contact) :
    (MergeContacts dst src).2 =
      ((mergeScalar dst.FormattedName src.FormattedName).2
       || (mergeScalar dst.GivenName src.GivenName).2
       || (mergeScalar dst.FamilyName src.FamilyName).2
       || (mergeScalar dst.MiddleName src.MiddleName).2
       || (mergeScalar dst.Prefix src.Prefix).2
       || (mergeScalar dst.Suffix src.Suffix).2
       || (mergeList NormalizeEmailForDedup dst.Emails src.Emails).2
       || (mergeList NormalizePhoneForDedup dst.Phones src.Phones).2
       || (mergeList normalizeAddress dst.Addresses src.Addresses).2
       || (mergeScalar dst.Organization src.Organization).2
       || (mergeScalar dst.Title src.Title).2
       || (mergeList urlKey dst.URLs src.URLs).2
       || (mergeNote dst.Note src.Note).2
       || (mergeScalar dst.Birthday src.Birthday).2
       || (mergeScalar dst.Photo src.Photo).2) := rfl

/-!
## Claim theorems: the merge engine (C4, C5, C6) -/

/-- C5: `MergeContacts` returns `true` exactly when at least one field of
the destination actually changed, and merging a contact into a structural
copy of itself returns `false` and leaves the destination unchanged. -/
theorem mergeContacts_changed_iff :
    (∀ dst src : Contact,
      ((MergeContacts dst src).2 = true ↔ (MergeContacts dst src).1 ≠ dst))
    ∧ (∀ c : Contact, MergeContacts c c = (c, false)) := by
  constructor
  · intro dst src
    constructor
    · intro hflag
      rw [mergeContacts_flag_eq] at hflag
      simp only [Bool.or_eq_true] at hflag
      rcases hflag with (((((((((((((h|h)|h)|h)|h)|h)|h)|h)|h)|h)|h)|h)|h)|h)|h
      · intro heq; exact mergeScalar_flag.mp h (congrArg Contact.FormattedName heq)
      · intro heq; exact mergeScalar_flag.mp h (congrArg Contact.GivenName heq)
      · intro heq; exact mergeScalar_flag.mp h (congrArg Contact.FamilyName heq)
      · intro heq; exact mergeScalar_flag.mp h (congrArg Contact.MiddleName heq)
      · intro heq; exact mergeScalar_flag.mp h (congrArg Contact.Prefix heq)
      · intro heq; exact mergeScalar_flag.mp h (congrArg Contact.Suffix heq)
      · intro heq
        exact (mergeList_flag NormalizeEmailForDedup dst.Emails src.Emails).mp h
          (congrArg Contact.Emails heq)
      · intro heq
        exact (mergeList_flag NormalizePhoneForDedup dst.Phones src.Phones).mp h
          (congrArg Contact.Phones heq)
      · intro heq
        exact (mergeList_flag normalizeAddress dst.Addresses src.Addresses).mp h
          (congrArg Contact.Addresses heq)
      · intro heq; exact mergeScalar_flag.mp h (congrArg Contact.Organization heq)
      · intro heq; exact mergeScalar_flag.mp h (congrArg Contact.Title heq)
      · intro heq
        exact (mergeList_flag urlKey dst.URLs src.URLs).mp h (congrArg Contact.URLs heq)
      · intro heq; exact mergeNote_flag.mp h (congrArg Contact.Note heq)
      · intro heq; exact mergeScalar_flag.mp h (congrArg Contact.Birthday heq)
      · intro heq; exact mergeScalar_flag.mp h (congrArg Contact.Photo heq)
    · intro hne
      by_contra hflag
      have hf2 : (MergeContacts dst src).2 = false := by
        cases hb : (MergeContacts dst src).2
        · rfl
        · exact absurd hb hflag
      rw [mergeContacts_flag_eq] at hf2
      simp only [Bool.or_eq_false_iff] at hf2
      obtain ⟨⟨⟨⟨⟨⟨⟨⟨⟨⟨⟨⟨⟨⟨h1, h2⟩, h3⟩, h4⟩, h5⟩, h6⟩, h7⟩, h8⟩, h9⟩, h10⟩,
        h11⟩, h12⟩, h13⟩, h14⟩, h15⟩ := hf2
      apply hne
      apply Contact.ext
      · exact mergeScalar_flag_false h1
      · exact mergeScalar_flag_false h2
      · exact mergeScalar_flag_false h3
      · exact mergeScalar_flag_false h4
      · exact mergeScalar_flag_false h5
      · exact mergeScalar_flag_false h6
      · exact mergeList_flag_false h7
      · exact mergeList_flag_false h8
      · exact mergeList_flag_false h9
      · exact mergeScalar_flag_false h10
      · exact mergeScalar_flag_false h11
      · exact mergeList_flag_false h12
      · exact mergeNote_flag_false h13
      · exact mergeScalar_flag_false h14
      · exact mergeScalar_flag_false h15
      · rfl
  · intro c
    have h1 : (MergeContacts c c).1 = c := by
      apply Contact.ext
      · exact congrArg Prod.fst (mergeScalar_self c.FormattedName)
      · exact congrArg Prod.fst (mergeScalar_self c.GivenName)
      · exact congrArg Prod.fst (mergeScalar_self c.FamilyName)
      · exact congrArg Prod.fst (mergeScalar_self c.MiddleName)
      · exact congrArg Prod.fst (mergeScalar_self c.Prefix)
      · exact congrArg Prod.fst (mergeScalar_self c.Suffix)
      · exact congrArg Prod.fst (mergeList_self NormalizeEmailForDedup c.Emails)
      · exact congrArg Prod.fst (mergeList_self NormalizePhoneForDedup c.Phones)
      · exact congrArg Prod.fst (mergeList_self normalizeAddress c.Addresses)
      · exact congrArg Prod.fst (mergeScalar_self c.Organization)
      · exact congrArg Prod.fst (mergeScalar_self c.Title)
      · exact congrArg Prod.fst (mergeList_self urlKey c.URLs)
      · exact congrArg Prod.fst (mergeNote_self c.Note)
      · exact congrArg Prod.fst (mergeScalar_self c.Birthday)
      · exact congrArg Prod.fst (mergeScalar_self c.Photo)
      · rfl
    have h2 : (MergeContacts c c).2 = false := by
      rw [mergeContacts_flag_eq]
      simp [mergeScalar_self, mergeList_self, mergeNote_self]
    rw [Prod.ext_iff]
    exact ⟨h1, h2⟩

/-- Witness for C5 at a concrete input: self-merge of the empty contact. -/
theorem mergeContacts_changed_iff_witness :
    MergeContacts emptyContact emptyContact = (emptyContact, false) :=
  mergeContacts_changed_iff.2 emptyContact

/-- C4 counterexample: the note is a scalar field, it is non-empty in the
destination, and the merge still changes it (by appending the separator and
the source note), so "every non-empty scalar field is unchanged" fails. -/
theorem mergeContacts_note_changes :
    noteDst.Note ≠ ""
    ∧ (MergeContacts noteDst noteSrc).1.Note ≠ noteDst.Note
    ∧ (MergeContacts noteDst noteSrc).1.Note = "alpha\n\n---\n\nbeta" := by decide

/-- C4 (amended): merge is one-way enrichment — every non-empty scalar
identity field of the destination keeps its value; the note keeps its old
value as a prefix (it can only be extended, per the note rule); every
multi-valued field keeps its existing elements unchanged in place with new
items appended only at the end (hence is a superset by normalized key); the
source is never written (the embedding's `MergeContacts` reads it only). -/
theorem mergeContacts_enrichment (dst src : Contact) :
    (dst.FormattedName ≠ "" → (MergeContacts dst src).1.FormattedName = dst.FormattedName)
    ∧ (dst.GivenName ≠ "" → (MergeContacts dst src).1.GivenName = dst.GivenName)
    ∧ (dst.FamilyName ≠ "" → (MergeContacts dst src).1.FamilyName = dst.FamilyName)
    ∧ (dst.MiddleName ≠ "" → (MergeContacts dst src).1.MiddleName = dst.MiddleName)
    ∧ (dst.Prefix ≠ "" → (MergeContacts dst src).1.Prefix = dst.Prefix)
    ∧ (dst.Suffix ≠ "" → (MergeContacts dst src).1.Suffix = dst.Suffix)
    ∧ (dst.Organization ≠ "" → (MergeContacts dst src).1.Organization = dst.Organization)
    ∧ (dst.Title ≠ "" → (MergeContacts dst src).1.Title = dst.Title)
    ∧ (dst.Birthday ≠ "" → (MergeContacts dst src).1.Birthday = dst.Birthday)
    ∧ (dst.Photo ≠ "" → (MergeContacts dst src).1.Photo = dst.Photo)
    ∧ (∃ t, (MergeContacts dst src).1.Note = dst.Note ++ t)
    ∧ (∃ t, (MergeContacts dst src).1.Emails = dst.Emails ++ t)
    ∧ (∃ t, (MergeContacts dst src).1.Phones = dst.Phones ++ t)
    ∧ (∃ t, (MergeContacts dst src).1.Addresses = dst.Addresses ++ t)
    ∧ (∃ t, (MergeContacts dst src).1.URLs = dst.URLs ++ t) := by
  refine ⟨fun h => mergeScalar_keep h, fun h => mergeScalar_keep h,
    fun h => mergeScalar_keep h, fun h => mergeScalar_keep h,
    fun h => mergeScalar_keep h, fun h => mergeScalar_keep h,
    fun h => mergeScalar_keep h, fun h => mergeScalar_keep h,
    fun h => mergeScalar_keep h, fun h => mergeScalar_keep h,
    mergeNote_extends dst.Note src.Note,
    mergeList_extends NormalizeEmailForDedup dst.Emails src.Emails,
    mergeList_extends NormalizePhoneForDedup dst.Phones src.Phones,
    mergeList_extends normalizeAddress dst.Addresses src.Addresses,
    mergeList_extends urlKey dst.URLs src.URLs⟩

/-- Witness for C4 (amended) at a concrete input. -/
theorem mergeContacts_enrichment_witness :
    (MergeContacts noteDst noteSrc).1.FormattedName = noteDst.FormattedName
    ∧ (∃ t, (MergeContacts noteDst noteSrc).1.Note = noteDst.Note ++ t) := by
  have h := mergeContacts_enrichment noteDst noteSrc
  exact ⟨h.1 (by decide), h.2.2.2.2.2.2.2.2.2.2.1⟩

/-- C6 counterexample: the key of the source phone `"123"` is empty and
absent from the (empty) destination key set, yet the merge does not append
it — the implementation additionally requires a non-empty key. -/
theorem mergeContacts_emptyKey_skipped :
    NormalizePhoneForDedup "123" = ""
    ∧ NormalizePhoneForDedup "123" ∉ emptyContact.Phones.map NormalizePhoneForDedup
    ∧ (MergeContacts emptyContact emptyKeySrc).1.Phones = [] := by decide

/-- C6 (amended): for each multi-valued field, the merged contents equal
the spec's fresh-recomputation formulation `specMergeList`: walk the source
in order, append the original value exactly when its normalized key is
non-empty and absent from the keys of the current destination contents. -/
theorem mergeContacts_multivalued_spec (dst src : Contact) :
    (MergeContacts dst src).1.Emails
      = specMergeList NormalizeEmailForDedup dst.Emails src.Emails
    ∧ (MergeContacts dst src).1.Phones
      = specMergeList NormalizePhoneForDedup dst.Phones src.Phones
    ∧ (MergeContacts dst src).1.Addresses
      = specMergeList normalizeAddress dst.Addresses src.Addresses
    ∧ (MergeContacts dst src).1.URLs
      = specMergeList urlKey dst.URLs src.URLs :=
  ⟨mergeList_eq_spec NormalizeEmailForDedup dst.Emails src.Emails,
   mergeList_eq_spec NormalizePhoneForDedup dst.Phones src.Phones,
   mergeList_eq_spec normalizeAddress dst.Addresses src.Addresses,
   mergeList_eq_spec urlKey dst.URLs src.URLs⟩

/-!
## Claim theorems: the normalizers (C7, C8) -/

/-- C7 counterexample: an address with two `@` characters is *not* left
intact — the split at the first `@` still happens and plus-addressing
truncation applies to the part before it. -/
theorem normalizeEmail_multiAt_changes :
    ("a+b@c@d".data.filter (fun c => c = '@')).length = 2
    ∧ NormalizeEmailForDedup "a+b@c@d" = "a@c@d"
    ∧ NormalizeEmailForDedup "a+b@c@d" ≠ "a+b@c@d" := by decide

/-- C7 (amended): with no `@` the key is the lowercased/trimmed input
unchanged; with at least one `@` the string is split at the *first* `@`,
plus-truncation applies to the part before it, and when the remainder
still contains an `@` (two or more `@` in total) no googlemail/gmail
rewriting applies, so the input is left intact exactly when its pre-`@`
part is plus-free. -/
theorem normalizeEmail_split_behavior :
    (∀ s : String, '@' ∉ s.data → NormalizeEmailForDedup s = lowerTrimStr s)
    ∧ (∀ (s : String) (pre rest : List Char),
        (lowerTrimStr s).data = pre ++ '@' :: rest → '@' ∉ pre → '@' ∈ rest →
        NormalizeEmailForDedup s = ⟨pre.takeWhile (· ≠ '+') ++ '@' :: rest⟩)
    ∧ (∀ (s : String) (pre rest : List Char),
        s.data = pre ++ '@' :: rest → lowerTrimStr s = s →
        '@' ∉ pre → '@' ∈ rest → '+' ∉ pre →
        NormalizeEmailForDedup s = s) := by
  have hb : ∀ (s : String) (pre rest : List Char),
      (lowerTrimStr s).data = pre ++ '@' :: rest → '@' ∉ pre → '@' ∈ rest →
      NormalizeEmailForDedup s = ⟨pre.takeWhile (· ≠ '+') ++ '@' :: rest⟩ := by
    intro s pre rest hsplit hpre hrest
    have hsome : splitFirstAt '@' (lowerChars (trimChars s.data)) = some (pre, rest) := by
      rw [show lowerChars (trimChars s.data) = pre ++ '@' :: rest from hsplit]
      exact splitFirstAt_append pre rest hpre
    have hg1 : ¬(rest = "googlemail.com".data) := by
      intro he
      rw [he] at hrest
      exact absurd hrest (by decide)
    have hg2 : ¬(rest = "gmail.com".data) := by
      intro he
      rw [he] at hrest
      exact absurd hrest (by decide)
    simp only [NormalizeEmailForDedup, hsome, if_neg hg1, if_neg hg2]
  refine ⟨?_, hb, ?_⟩
  · intro s h
    have hnone : splitFirstAt '@' (lowerChars (trimChars s.data)) = none :=
      splitFirstAt_eq_none.mpr (at_not_mem_lowerTrim h)
    simp only [NormalizeEmailForDedup, hnone]
    rfl
  · intro s pre rest hsdata hlt hpre hrest hplus
    have hsplit : (lowerTrimStr s).data = pre ++ '@' :: rest := by
      rw [congrArg String.data hlt]; exact hsdata
    rw [hb s pre rest hsplit hpre hrest]
    have htake : pre.takeWhile (· ≠ '+') = pre :=
      List.takeWhile_eq_self_iff.mpr (fun x hx => by
        simp only [decide_eq_true_eq]
        exact fun he => hplus (he ▸ hx))
    rw [htake, ← hsdata]

/-- Witness for C7 (amended) at the multi-`@` input of the Go test table:
plus-free before the first `@`, so the address is left intact. -/
theorem normalizeEmail_split_behavior_witness :
    NormalizeEmailForDedup "john@doe@example.com" = "john@doe@example.com" :=
  normalizeEmail_split_behavior.2.2 "john@doe@example.com"
    "john".data "doe@example.com".data
    (by decide) (by decide) (by decide) (by decide) (by decide)

/-- C8 counterexample: a name with two leading honorifics in list order
loses both — the key of `"Dr. Mr. Smith"` is `"smith"`, not
`"mr. smith"`, so "strips at most one prefix" fails. -/
theorem normalizeName_doubleHonorific :
    NormalizeNameForDedup "Dr. Mr. Smith" = "smith"
    ∧ NormalizeNameForDedup "Dr. Mr. Smith" ≠ "mr. smith" := by decide

/-- C8 (amended): the normalizer applies one `TrimPrefix` per entry of the
fixed prefix list in list order (and one `TrimSuffix` per entry of the
suffix list), so each list entry is stripped at most once, but several
honorifics can be stripped when they occur in list order: `"Dr. Mr."`
loses both while `"Mr. Dr."` and `"Dr. Dr."` keep the second one;
stripping requires the following space, so a bare `"Dr."` is kept; on the
suffix side `"MD PhD"` loses both while `"PhD MD"` keeps `phd`. -/
theorem normalizeName_fixedList_trimming :
    NormalizeNameForDedup "Dr. Mr. Smith" = "smith"
    ∧ NormalizeNameForDedup "Mr. Dr. Smith" = "dr. smith"
    ∧ NormalizeNameForDedup "Dr. Dr. Smith" = "dr. smith"
    ∧ NormalizeNameForDedup "Dr." = "dr."
    ∧ NormalizeNameForDedup "Dr. John Doe" = "john doe"
    ∧ NormalizeNameForDedup "John Doe Jr." = "john doe"
    ∧ NormalizeNameForDedup "John Smith MD PhD" = "john smith"
    ∧ NormalizeNameForDedup "John Smith PhD MD" = "john smith phd" := by decide

/-!
## Claim theorems: the comparator (C9, C10) -/

lemma sharesPhoneKey_symm {a b : Contact} (h : SharesPhoneKey a b) :
    SharesPhoneKey b a := by
  obtain ⟨p, hp, hne, q, hq, heq⟩ := h
  exact ⟨q, hq, heq ▸ hne, p, hp, heq.symm⟩

lemma sharesEmailKey_symm {a b : Contact} (h : SharesEmailKey a b) :
    SharesEmailKey b a := by
  obtain ⟨p, hp, hne, q, hq, heq⟩ := h
  exact ⟨q, hq, heq ▸ hne, p, hp, heq.symm⟩

lemma unnamedSentinel_symm {a b : Contact} (h : UnnamedSentinel a b) :
    UnnamedSentinel b a := h.symm

lemma sameNameKey_symm {a b : Contact} (h : SameNameKey a b) : SameNameKey b a :=
  ⟨h.2 ▸ h.1, h.2.symm⟩

lemma orgCorroborates_symm {a b : Contact} (h : OrgCorroborates a b) :
    OrgCorroborates b a :=
  ⟨h.2 ▸ h.1, h.2.symm⟩

lemma birthdayCorroborates_symm {a b : Contact} (h : BirthdayCorroborates a b) :
    BirthdayCorroborates b a :=
  ⟨h.2 ▸ h.1, h.2.symm⟩

/-- C9: the grading of `CompareContacts` — Strong exactly on a shared
non-empty phone or email key; None exactly when, in addition to no strong
signal, a name key is the unnamed sentinel or the name keys differ or are
empty; Medium exactly on equal non-empty name keys corroborated by a same
non-empty organization or same non-empty birthday (Medium is the ceiling);
Weak exactly on equal non-empty name keys with no corroboration. -/
theorem compareContacts_grading (a b : Contact) :
    (CompareContacts a b = MatchStrength.strong
      ↔ SharesPhoneKey a b ∨ SharesEmailKey a b)
    ∧ (CompareContacts a b = MatchStrength.none
      ↔ ¬(SharesPhoneKey a b ∨ SharesEmailKey a b)
          ∧ (UnnamedSentinel a b ∨ ¬SameNameKey a b))
    ∧ (CompareContacts a b = MatchStrength.medium
      ↔ ¬(SharesPhoneKey a b ∨ SharesEmailKey a b) ∧ ¬UnnamedSentinel a b
          ∧ SameNameKey a b ∧ (OrgCorroborates a b ∨ BirthdayCorroborates a b))
    ∧ (CompareContacts a b = MatchStrength.weak
      ↔ ¬(SharesPhoneKey a b ∨ SharesEmailKey a b) ∧ ¬UnnamedSentinel a b
          ∧ SameNameKey a b ∧ ¬OrgCorroborates a b ∧ ¬BirthdayCorroborates a b) :=
  ⟨(compareContacts_cases a b).1, (compareContacts_cases a b).2.2.2,
   (compareContacts_cases a b).2.1, (compareContacts_cases a b).2.2.1⟩

/-- Witness for C9 at a concrete input: a same-name, same-organization
pair grades Medium. -/
theorem compareContacts_grading_witness :
    CompareContacts orgContactA orgContactB = MatchStrength.medium :=
  (compareContacts_grading orgContactA orgContactB).2.2.1.mpr (by decide)

/-- C10: `CompareContacts` is symmetric, although the implementation
iterates the first contact's phones and emails in the outer loops and
tests the first contact's organization and birthday for non-emptiness. -/
theorem compareContacts_symm (a b : Contact) :
    CompareContacts a b = CompareContacts b a := by
  have ha := compareContacts_cases a b
  have hb := compareContacts_cases b a
  cases hcc : CompareContacts a b with
  | strong =>
    exact (hb.1.mpr ((ha.1.mp hcc).imp sharesPhoneKey_symm sharesEmailKey_symm)).symm
  | medium =>
    obtain ⟨hsh, hu, hn, hcor⟩ := ha.2.1.mp hcc
    refine (hb.2.1.mpr ⟨?_, fun h => hu (unnamedSentinel_symm h), sameNameKey_symm hn,
      hcor.imp orgCorroborates_symm birthdayCorroborates_symm⟩).symm
    rintro (h | h)
    · exact hsh (Or.inl (sharesPhoneKey_symm h))
    · exact hsh (Or.inr (sharesEmailKey_symm h))
  | weak =>
    obtain ⟨hsh, hu, hn, ho, hbd⟩ := ha.2.2.1.mp hcc
    refine (hb.2.2.1.mpr ⟨?_, fun h => hu (unnamedSentinel_symm h), sameNameKey_symm hn,
      fun h => ho (orgCorroborates_symm h), fun h => hbd (birthdayCorroborates_symm h)⟩).symm
    rintro (h | h)
    · exact hsh (Or.inl (sharesPhoneKey_symm h))
    · exact hsh (Or.inr (sharesEmailKey_symm h))
  | none =>
    obtain ⟨hsh, hrest⟩ := ha.2.2.2.mp hcc
    refine (hb.2.2.2.mpr ⟨?_, ?_⟩).symm
    · rintro (h | h)
      · exact hsh (Or.inl (sharesPhoneKey_symm h))
      · exact hsh (Or.inr (sharesEmailKey_symm h))
    · rcases hrest with h | h
      · exact Or.inl (unnamedSentinel_symm h)
      · exact Or.inr (fun hn => h (sameNameKey_symm hn))

/-- Witness for C10 at a concrete input (asymmetric field layout on the
two sides). -/
theorem compareContacts_symm_witness :
    CompareContacts orgContactA { emptyContact with FormattedName := "Grace" }
      = CompareContacts { emptyContact with FormattedName := "Grace" } orgContactA :=
  compareContacts_symm orgContactA { emptyContact with FormattedName := "Grace" }

/-!
## Claim theorems: the classifier (C1, C2, C3) -/

lemma mem_entries_of_mem_candidateIds {idx : DedupIndex} {c : Contact} {i : Nat}
    (h : i ∈ candidateIds idx c) : ∃ s, (i, s) ∈ idx.entries := by
  rcases mem_candidateIds.mp h with ⟨p, _, hb⟩ | ⟨e, _, hb⟩ | ⟨_, _, hb, _⟩
  · obtain ⟨_, s, hs, _⟩ := mem_phoneBucket.mp hb
    exact ⟨s, hs⟩
  · obtain ⟨_, s, hs, _⟩ := mem_emailBucket.mp hb
    exact ⟨s, hs⟩
  · obtain ⟨_, s, hs, _⟩ := mem_nameBucket.mp hb
    exact ⟨s, hs⟩

lemma sameName_minimal_pos (idx : DedupIndex) (qid i : Nat) (q cand : Contact)
    (hmem : (i, cand) ∈ idx.entries) (hstore : idx.store i = cand) (hne : i ≠ qid)
    (hname : NormalizeNameForDedup cand.DisplayName = NormalizeNameForDedup q.DisplayName)
    (hq1 : NormalizeNameForDedup q.DisplayName ≠ "")
    (hq2 : NormalizeNameForDedup q.DisplayName ≠ "unnamed contact")
    (hov : hasAnyOverlap q cand = false)
    (hminq : isMinimalContact q = true) (hminc : isMinimalContact cand = true) :
    i ∈ FindDuplicates idx qid q := by
  rw [mem_FindDuplicates]
  refine ⟨mem_candidateIds.mpr (Or.inr (Or.inr ⟨hq1, hq2, ?_, ?_⟩)), hne⟩
  · exact mem_nameBucket.mpr ⟨hq1, cand, hmem, hname⟩
  · rw [hstore, hov, hminq, hminc]
    rfl

lemma sameName_minimal_neg (idx : DedupIndex) (qid i : Nat) (q cand : Contact)
    (hall : ∀ e ∈ idx.entries, e.1 = i → e.2 = cand)
    (hstore : idx.store i = cand)
    (hov : hasAnyOverlap q cand = false)
    (hminq : isMinimalContact q = false) (hminc : isMinimalContact cand = false) :
    i ∉ FindDuplicates idx qid q := by
  intro hmem
  obtain ⟨hcand, _⟩ := mem_FindDuplicates.mp hmem
  rcases mem_candidateIds.mp hcand with ⟨p, hp, hb⟩ | ⟨e, he, hb⟩ | ⟨_, _, hb, hfil⟩
  · obtain ⟨hk, s, hs, hkey⟩ := mem_phoneBucket.mp hb
    have hsc : s = cand := hall (i, s) hs rfl
    subst hsc
    obtain ⟨pb, hpb, hpbeq⟩ := List.mem_map.mp hkey
    have hno := (hasAnyOverlap_eq_false.mp hov).1 pb hpb
    exact hno (by rw [hpbeq]; exact List.mem_map.mpr ⟨p, hp, rfl⟩)
  · obtain ⟨hk, s, hs, hkey⟩ := mem_emailBucket.mp hb
    have hsc : s = cand := hall (i, s) hs rfl
    subst hsc
    obtain ⟨eb, heb, hebeq⟩ := List.mem_map.mp hkey
    have hno := (hasAnyOverlap_eq_false.mp hov).2 eb heb
    exact hno (by rw [hebeq]; exact List.mem_map.mpr ⟨e, he, rfl⟩)
  · rw [hstore, hov, hminq, hminc] at hfil
    exact absurd hfil (by decide)

lemma sameName_minimal_isdup (i qid : Nat) (q cand : Contact)
    (hov : hasAnyOverlap q cand = false)
    (hminq : isMinimalContact q = false) (hminc : isMinimalContact cand = false) :
    IsDuplicate (DedupIndex.empty.Add i cand) qid q = false := by
  have hstore : (DedupIndex.empty.Add i cand).store i = cand := by
    simp [DedupIndex.Add, DedupIndex.empty]
  have hnotmem : i ∉ FindDuplicates (DedupIndex.empty.Add i cand) qid q := by
    refine sameName_minimal_neg _ qid i q cand ?_ hstore hov hminq hminc
    intro e he _
    have heq : e = (i, cand) := by
      simpa [DedupIndex.Add, DedupIndex.empty] using he
    rw [heq]
  unfold IsDuplicate
  cases hl : FindDuplicates (DedupIndex.empty.Add i cand) qid q with
  | nil => rfl
  | cons j js =>
    exfalso
    have hj : j ∈ FindDuplicates (DedupIndex.empty.Add i cand) qid q := by
      rw [hl]; exact List.mem_cons_self j js
    obtain ⟨hcand, _⟩ := mem_FindDuplicates.mp hj
    obtain ⟨s, hs⟩ := mem_entries_of_mem_candidateIds hcand
    have hentries : (DedupIndex.empty.Add i cand).entries = [(i, cand)] := rfl
    rw [hentries] at hs
    have hji : j = i := congrArg Prod.fst (List.mem_singleton.mp hs)
    exact hnotmem (hji ▸ hj)

/-- C2 counterexample: the query is minimal (one phone), the indexed
same-named candidate holds 4 phones (hence is not minimal) and shares no
phone or email key with the query — yet `IsDuplicate` returns `true`,
because rule 3b requires only *one* side to be minimal. -/
theorem minimal_escape_hatch_counterexample :
    fourPhoneCandidate.Phones.length = 4
    ∧ isMinimalContact fourPhoneCandidate = false
    ∧ isMinimalContact onePhoneQuery = true
    ∧ hasAnyOverlap onePhoneQuery fourPhoneCandidate = false
    ∧ IsDuplicate (DedupIndex.empty.Add 0 fourPhoneCandidate) 1 onePhoneQuery = true := by
  decide

/-- C2 (amended): for same-named contacts (non-empty, non-sentinel name
key) with no key overlap at all, (i) if both are minimal the candidate is
reported a duplicate; (ii) if *neither* is minimal the candidate is never
reported; (iii) in particular, against an index holding only the
non-minimal candidate, `IsDuplicate` returns `false` when the query is
also non-minimal. -/
theorem sameName_minimal_rule :
    (∀ (idx : DedupIndex) (qid i : Nat) (q cand : Contact),
      (i, cand) ∈ idx.entries → idx.store i = cand → i ≠ qid →
      NormalizeNameForDedup cand.DisplayName = NormalizeNameForDedup q.DisplayName →
      NormalizeNameForDedup q.DisplayName ≠ "" →
      NormalizeNameForDedup q.DisplayName ≠ "unnamed contact" →
      hasAnyOverlap q cand = false →
      isMinimalContact q = true → isMinimalContact cand = true →
      i ∈ FindDuplicates idx qid q)
    ∧ (∀ (idx : DedupIndex) (qid i : Nat) (q cand : Contact),
      (∀ e ∈ idx.entries, e.1 = i → e.2 = cand) → idx.store i = cand →
      hasAnyOverlap q cand = false →
      isMinimalContact q = false → isMinimalContact cand = false →
      i ∉ FindDuplicates idx qid q)
    ∧ (∀ (i qid : Nat) (q cand : Contact),
      hasAnyOverlap q cand = false →
      isMinimalContact q = false → isMinimalContact cand = false →
      IsDuplicate (DedupIndex.empty.Add i cand) qid q = false) :=
  ⟨sameName_minimal_pos, sameName_minimal_neg, sameName_minimal_isdup⟩

/-- Witness for C2 (amended) at concrete inputs: the both-minimal pair is
reported, the neither-minimal pair is not. -/
theorem sameName_minimal_rule_witness :
    0 ∈ FindDuplicates (DedupIndex.empty.Add 0 bothMinimalCand) 1 bothMinimalQuery
    ∧ IsDuplicate (DedupIndex.empty.Add 0 richCand) 1 richQuery = false := by
  constructor
  · exact sameName_minimal_rule.1 (DedupIndex.empty.Add 0 bothMinimalCand) 1 0
      bothMinimalQuery bothMinimalCand (by decide) (by decide) (by decide) (by decide)
      (by decide) (by decide) (by decide) (by decide) (by decide)
  · exact sameName_minimal_rule.2.2 0 1 richQuery richCand (by decide) (by decide) (by decide)

/-- C1: the rule-3a overlap check joins records on the empty key.  Query
and indexed candidate share the (non-sentinel) name key `john doe`, are
both non-minimal (4 phones each), and share no non-empty phone key and no
email key at all; each side owns a phone with fewer than 6 digits, whose
key is the empty string.  `hasAnyOverlap` nevertheless fires (it inserts
the empty key into its key set), so `FindDuplicates` reports the candidate
and `IsDuplicate` returns `true`, where the claim and §4.1 of the spec
demand `false`. -/
theorem classifier_joins_on_empty_key :
    isMinimalContact shortPhoneQuery = false
    ∧ isMinimalContact shortPhoneCandidate = false
    ∧ NormalizeNameForDedup shortPhoneQuery.DisplayName = "john doe"
    ∧ NormalizeNameForDedup shortPhoneCandidate.DisplayName = "john doe"
    ∧ (∀ k ∈ shortPhoneQuery.Phones.map NormalizePhoneForDedup,
        k = "" ∨ k ∉ shortPhoneCandidate.Phones.map NormalizePhoneForDedup)
    ∧ shortPhoneQuery.Emails = [] ∧ shortPhoneCandidate.Emails = []
    ∧ hasAnyOverlap shortPhoneQuery shortPhoneCandidate = true
    ∧ FindDuplicates (DedupIndex.empty.Add 0 shortPhoneCandidate) 1 shortPhoneQuery = [0]
    ∧ IsDuplicate (DedupIndex.empty.Add 0 shortPhoneCandidate) 1 shortPhoneQuery = true := by
  decide

set_option maxRecDepth 8000 in
/-- C3: importing the seven §8 records in order — insert on
`IsDuplicate = false`, merge into the first match otherwise — yields
exactly 3 indexed entities: the John Doe cluster, the Jane Smith cluster,
and Bob Johnson. -/
theorem sectionEight_three_entities :
    (importAll sectionEightRecords).1.entries.length = 3
    ∧ (importAll sectionEightRecords).1.entries.map
        (fun e => ((importAll sectionEightRecords).1.store e.1).DisplayName)
      = ["John Doe", "Jane Smith", "Bob Johnson"] := by
  decide
